import Mathlib

/-!
Verification development for the beancount parsing subsystem.

The repository ships only the test suite of the parser
(`src/python/beancount/parser/grammar_test.py`); the parser, builder and
lot/cost resolver themselves (`beancount/parser/grammar.py` and the
generated grammar) are not part of the sources.  Every definition below is
therefore a shallow model reconstructed from the natural-language
specification (spec.md sections 3, 4.3, 4.4, 4.6 and 6), kept consistent
with the behaviour the shipped tests pin down.  Exact decimal numbers are
modelled as rationals; Python exceptions are modelled with `Except`;
the shared error channel is modelled as explicit error lists.
-/

/-- Modelled from the spec: a calendar date literal `YYYY-MM-DD` (spec section 3,
"Token"); eager validation happens in the missing tokenizer, so dates reaching
the builder are plain triples. -/
structure BDate where
  year : Nat
  month : Nat
  day : Nat
deriving DecidableEq, Repr

/-- Modelled from the spec: `Amount = (number: exact-decimal | none,
currency: string | none)` (spec section 3); the missing `beancount.core.amount`
module declares it. -/
structure Amount where
  number : Option ℚ
  currency : Option String
deriving DecidableEq, Repr

/-- Modelled from the spec: `CompoundAmount = (per_unit: decimal|none,
total: decimal|none, currency: string|none)` (spec section 3), declared in the
missing `beancount/parser/grammar.py`. -/
structure CompoundAmount where
  per_unit : Option ℚ
  total : Option ℚ
  currency : Option String
deriving DecidableEq, Repr

/-- Modelled from the spec: `LotSpec = (currency, compound_cost, date, label,
merge)` (spec section 3), declared in the missing `beancount/core/position`
module. -/
structure LotSpec where
  currency : Option String
  compound_cost : Option CompoundAmount
  lot_date : Option BDate
  label : Option String
  merge : Option Bool
deriving DecidableEq, Repr

/-- Modelled from the spec: one component of a cost clause `{...}` --- "any
mixture of: a compound amount (per-unit or total cost + currency), a date
literal, a quoted label, or a merge marker" (spec section 4.6). -/
inductive LotComponent
  | compAmount (ca : CompoundAmount)
  | lotDate (d : BDate)
  | lotLabel (s : String)
  | lotMerge
deriving DecidableEq, Repr

/-- Errors reported by the lot/cost resolver (spec section 4.6).  The real
builder appends `ParserError` values with these messages; the model keeps them
as structured tags, with `LotErr.message` giving the message text. -/
inductive LotErr
  | dupCost
  | dupDate
  | dupLabel
  | dupMerge
  | labelUnsupported
  | mergeUnsupported
deriving DecidableEq, Repr

/-- The message text carried by each lot/cost resolver error (spec section 4.6
and the regexes asserted by `grammar_test.py` TestParseLots). -/
def LotErr.message : LotErr → String
  | .dupCost => "Duplicate cost"
  | .dupDate => "Duplicate date"
  | .dupLabel => "Duplicate label"
  | .dupMerge => "Duplicate merge-cost spec"
  | .labelUnsupported => "Labels not supported yet"
  | .mergeUnsupported => "Merge-cost not supported yet"

/-- Result of folding a cost-clause component list: the four accumulated
fields plus the errors reported along the way. -/
structure LotFoldOut where
  compound_cost : Option CompoundAmount
  lot_date : Option BDate
  label : Option String
  merge : Option Bool
  errors : List LotErr
deriving DecidableEq, Repr

/-- Modelled from the spec: the fold at the heart of the missing
`grammar.py` lot/cost resolver (spec section 4.6): consume the unordered
component list, keeping the first occurrence of each kind, reporting a
duplicate error for every later occurrence, and reporting the
labels/merge-cost unsupported errors when the first label/merge marker is
stored; the fold never halts on an error. -/
def lotFold (cc : Option CompoundAmount) (dt : Option BDate) (lb : Option String)
    (mg : Option Bool) : List LotComponent → LotFoldOut
  | [] => ⟨cc, dt, lb, mg, []⟩
  | .compAmount ca :: rest =>
    match cc with
    | none => lotFold (some ca) dt lb mg rest
    | some c =>
      let o := lotFold (some c) dt lb mg rest
      { o with errors := .dupCost :: o.errors }
  | .lotDate d :: rest =>
    match dt with
    | none => lotFold cc (some d) lb mg rest
    | some d0 =>
      let o := lotFold cc (some d0) lb mg rest
      { o with errors := .dupDate :: o.errors }
  | .lotLabel s :: rest =>
    match lb with
    | none =>
      let o := lotFold cc dt (some s) mg rest
      { o with errors := .labelUnsupported :: o.errors }
    | some s0 =>
      let o := lotFold cc dt (some s0) mg rest
      { o with errors := .dupLabel :: o.errors }
  | .lotMerge :: rest =>
    match mg with
    | none =>
      let o := lotFold cc dt lb (some true) rest
      { o with errors := .mergeUnsupported :: o.errors }
    | some b =>
      let o := lotFold cc dt lb (some b) rest
      { o with errors := .dupMerge :: o.errors }

/-- Modelled from the spec: the builder method turning a parsed cost clause
into a `LotSpec` (spec sections 3 and 4.6); the unit currency of the posting
is attached as the `LotSpec` currency, as in the tests
(`LotSpec('AAPL', ...)`). -/
def lot_spec (currency : Option String) (comps : List LotComponent) :
    LotSpec × List LotErr :=
  let o := lotFold none none none none comps
  (⟨currency, o.compound_cost, o.lot_date, o.label, o.merge⟩, o.errors)

/-- Kind selectors on lot components, used to state the fold invariants. -/
def LotComponent.isCost : LotComponent → Bool
  | .compAmount _ => true
  | _ => false

def LotComponent.isDate : LotComponent → Bool
  | .lotDate _ => true
  | _ => false

def LotComponent.isLabel : LotComponent → Bool
  | .lotLabel _ => true
  | _ => false

def LotComponent.isMerge : LotComponent → Bool
  | .lotMerge => true
  | _ => false

def LotComponent.getCost : LotComponent → Option CompoundAmount
  | .compAmount ca => some ca
  | _ => none

def LotComponent.getDate : LotComponent → Option BDate
  | .lotDate d => some d
  | _ => none

def LotComponent.getLabel : LotComponent → Option String
  | .lotLabel s => some s
  | _ => none

/-- First-biased choice on options, written out so the proofs control it. -/
def orO {α : Type} : Option α → Option α → Option α
  | some x, _ => some x
  | none, b => b

/-- Modelled from the spec: the typed scalar values a metadata line can carry
(spec section 3, "Meta"). -/
inductive MetaValue
  | mstr (s : String)
  | mnum (q : ℚ)
  | mbool (b : Bool)
  | mdate (d : BDate)
  | mcur (s : String)
  | mtag (s : String)
deriving DecidableEq, Repr

/-- Errors reported while accumulating metadata (spec section 4.4); the real
builder records a `ParserError` whose message is `MetaErr.message`. -/
inductive MetaErr
  | dup (key : String)
deriving DecidableEq, Repr

def MetaErr.message : MetaErr → String
  | .dup key => "Duplicate metadata field on entry: " ++ key

/-- Association-list lookup returning the value bound to the first occurrence
of a key; mirrors the membership test `key in meta` of the missing builder. -/
def metaLookup : List (String × Option MetaValue) → String → Option (Option MetaValue)
  | [], _ => none
  | (k, v) :: rest, key => if k = key then some v else metaLookup rest key

/-- Modelled from the spec: accumulation of `key: value` metadata lines onto
one entry or posting (spec section 4.4): the first occurrence of a key wins, a
repeated key at the same nesting level records a "Duplicate ... metadata
field" error but keeps the first value, and a key with no value stores an
absent value without error. -/
def buildMetaAux (acc : List (String × Option MetaValue)) :
    List (String × Option MetaValue) →
      List (String × Option MetaValue) × List MetaErr
  | [] => (acc, [])
  | (k, v) :: rest =>
    if (metaLookup acc k).isSome then
      let o := buildMetaAux acc rest
      (o.1, .dup k :: o.2)
    else
      buildMetaAux (acc ++ [(k, v)]) rest

/-- The builder entry point for a block of metadata lines. -/
def buildMeta (kvs : List (String × Option MetaValue)) :
    List (String × Option MetaValue) × List MetaErr :=
  buildMetaAux [] kvs

/-- Errors reported by the tag-stack handling of the missing builder (spec
section 4.4); the real builder records `ParserError` values whose messages are
given by `TagErr.message` (matched by the regexes `Unbalanced tag` and
`absent tag` in `grammar_test.py` TestTagStack). -/
inductive TagErr
  | unbalanced (tag : String)
  | absent (tag : String)
deriving DecidableEq, Repr

def TagErr.message : TagErr → String
  | .unbalanced tag => "Unbalanced tag still active at the end of file: " ++ tag
  | .absent tag => "Attempting to pop absent tag: " ++ tag

/-- Modelled from the spec: `pushtag` appends a tag to the stack of active
tags (spec section 4.4). -/
def pushtag (tags : List String) (tag : String) : List String :=
  tags ++ [tag]

/-- Modelled from the spec: `poptag` removes one occurrence of the tag from
the stack; naming a tag not currently pushed records one "absent tag" error
and is a no-op on the stack (spec section 4.4). -/
def poptag (tags : List String) (tag : String) : List String × List TagErr :=
  if tag ∈ tags then (tags.erase tag, []) else (tags, [.absent tag])

/-- Modelled from the spec: at end of input every tag still on the stack is
reported as one "Unbalanced tag" error (spec section 4.4). -/
def finalizeTags (tags : List String) : List TagErr :=
  tags.map .unbalanced

/-- A source location `(filename, lineno)` attached to tokens and errors
(spec section 3, "Error"). -/
structure SourceLoc where
  filename : String
  lineno : Nat
deriving DecidableEq, Repr

/-- The error taxonomy of spec section 7 that is relevant to parsing:
`LexerError`, `ParserSyntaxError` and `ParserError`, each carrying the source
location and a descriptive message. -/
inductive ParseErr
  | lexErr (loc : SourceLoc) (message : String)
  | synErr (loc : SourceLoc) (message : String)
  | builderErr (loc : SourceLoc) (message : String)
deriving DecidableEq, Repr

/-- Modelled from the spec: `Position = (number: decimal|none, lot: LotSpec)`
(spec section 3). -/
structure Position where
  number : Option ℚ
  lot : LotSpec
deriving DecidableEq, Repr

/-- Modelled from the spec: `Posting = (account, position, price, flag, ...)`
(spec section 3). -/
structure Posting where
  account : String
  pos : Option Position
  price : Option Amount
  flag : Option String
deriving DecidableEq, Repr

/-- Modelled from the spec: the missing builder method `posting` (spec
sections 4.4, 4.6 and 4.7).  When the price was written with the total-price
syntax `@@` (`istotal = true`), the stored price is normalized to a per-unit
amount: the total is divided by the signed unit number when the
allow-negative-prices override is set, and by its absolute value otherwise
(zero units give a zero price).  A resulting negative price is then rejected
with a "Negative prices are not allowed" error unless the override is set.
Following the behaviour pinned by `test_cost_negative` and
`test_total_cost_negative` ("Note: This error is caught only at booking
time."), a negative cost inside the position's lot is NOT checked here. -/
def postingBuild (allowNegativePrices : Bool) (loc : SourceLoc) (account : String)
    (pos : Position) (price : Option Amount) (istotal : Bool) :
    Posting × List ParseErr :=
  let price1 : Option Amount :=
    if istotal then
      match price with
      | some pr =>
        let n : Option ℚ :=
          match pr.number, pos.number with
          | some pn, some un =>
            some (if un = 0 then 0
                  else if allowNegativePrices then pn / un else pn / |un|)
          | _, _ => pr.number
        some ⟨n, pr.currency⟩
      | none => none
    else price
  let errs : List ParseErr :=
    match price1 with
    | some pr =>
      match pr.number with
      | some pn =>
        if pn < 0 ∧ allowNegativePrices = false
        then [.builderErr loc "Negative prices are not allowed"]
        else []
      | none => []
    | none => []
  (⟨account, some pos, price1, none⟩, errs)

/-- Modelled from the spec: the typed tokens produced by the missing
tokenizer (spec sections 3 and 4.1).  `errTok` is the special ERROR token
emitted for an unrecognized character run; the corresponding `LexerError`
has already been recorded through the error channel when it is produced. -/
inductive Token
  | dateTok (y m d : Nat)
  | kw (s : String)
  | acct (s : String)
  | cur (s : String)
  | num (q : ℚ)
  | strTok (s : String)
  | tagTok (s : String)
  | flagTok (s : String)
  | lbrace
  | rbrace
  | dlbrace
  | drbrace
  | tilde
  | atTok
  | atatTok
  | hashTok
  | comma
  | star
  | errTok (text : String)
deriving DecidableEq, Repr

/-- A token paired with its source location. -/
abbrev PTok : Type := SourceLoc × Token

/-- Modelled from the spec: classification of directive-start tokens (spec
section 4.3): "a token starting with a date, or a top-level keyword like
option, include, plugin, pushtag, poptag". -/
def isDirectiveStart : Token → Bool
  | .dateTok _ _ _ => true
  | .kw s =>
    s = "option" || s = "include" || s = "plugin" || s = "pushtag" || s = "poptag"
  | _ => false

def isErrTok : Token → Bool
  | .errTok _ => true
  | _ => false

/-- The `LexerError` recorded through the error channel when the tokenizer
emits an ERROR token, if this token is one (spec section 4.1). -/
def lexErrOf (p : PTok) : Option ParseErr :=
  match p.2 with
  | .errTok txt => some (.lexErr p.1 ("Invalid token: " ++ txt))
  | _ => none

/-- The `LexerError`s recorded through the error channel while tokenizing:
one per ERROR token (spec section 4.1). -/
def lexerErrors (ts : List PTok) : List ParseErr :=
  ts.filterMap lexErrOf

/-- The directive kinds needed by the claims (spec sections 3 and 6). -/
inductive Directive
  | openDir (date : BDate) (account : String) (currencies : List String)
  | closeDir (date : BDate) (account : String)
  | balanceDir (date : BDate) (account : String) (number : ℚ) (currency : String)
      (tolerance : Option ℚ)
deriving DecidableEq, Repr

/-- Outcome of matching one directive's token segment against the grammar:
a directive-producing rule or an auxiliary rule producing no entry
(`pushtag`, `poptag`, `option`, ...). -/
inductive RuleOut
  | entry (d : Directive)
  | noEntry
deriving DecidableEq, Repr

/-- Modelled from the spec: a comma-separated currency list as in
`open ACCOUNT [CURRENCY[,CURRENCY...]]` (spec section 6). -/
def parseCurrencyListP : List PTok → Option (List String)
  | [] => some []
  | [(_, .cur c)] => some [c]
  | (_, .cur c) :: (_, .comma) :: rest =>
    (parseCurrencyListP rest).map (fun cs => c :: cs)
  | _ => none

/-- Modelled from the spec: the directive grammar of spec section 6 for the
directive kinds the claims exercise.  The `balance` rule accepts exactly
`ACCOUNT AMOUNT ["~" TOLERANCE]` --- an amount followed by a cost clause (or
anything else) does not match and is a syntax error. -/
def parseRule : PTok → List PTok → Option RuleOut
  | (_, .dateTok y m d), (_, .kw "open") :: (_, .acct a) :: rest =>
    (parseCurrencyListP rest).map (fun cs => .entry (.openDir ⟨y, m, d⟩ a cs))
  | (_, .dateTok y m d), [(_, .kw "close"), (_, .acct a)] =>
    some (.entry (.closeDir ⟨y, m, d⟩ a))
  | (_, .dateTok y m d), (_, .kw "balance") :: (_, .acct a) :: (_, .num n) :: rest =>
    (match rest with
     | [(_, .cur c)] => some (.entry (.balanceDir ⟨y, m, d⟩ a n c none))
     | [(_, .tilde), (_, .num tol), (_, .cur c)] =>
       some (.entry (.balanceDir ⟨y, m, d⟩ a n c (some tol)))
     | _ => none)
  | (_, .kw "pushtag"), [(_, .tagTok _)] => some .noEntry
  | (_, .kw "poptag"), [(_, .tagTok _)] => some .noEntry
  | (_, .kw "option"), [(_, .strTok _), (_, .strTok _)] => some .noEntry
  | _, _ => none

/-- Modelled from the spec: the message of the `ParserError` produced when a
builder callback raises is "derived from the underlying failure" (spec
section 4.3); the model derives it as the exception text itself. -/
def deriveMessage (m : String) : String := m

/-- Modelled from the spec: reduction of one directive segment (spec section
4.3).  If the segment contains an ERROR token, its `LexerError` was already
recorded by the tokenizer and is not duplicated; if the tokens match no
grammar rule, one `ParserSyntaxError` at the directive's location is
recorded; otherwise the builder callback runs, and an exception raised
inside it is caught right here and converted into one `ParserError` with the
current source location and a message derived from the failure. -/
def reduceGen (builder : RuleOut → PTok → List PTok → Except String (Option Directive))
    (t : PTok) (body : List PTok) : Except (List ParseErr) (Option Directive) :=
  if (t :: body).any (fun p => isErrTok p.2) then .error []
  else
    match parseRule t body with
    | none => .error [.synErr t.1 "syntax error"]
    | some ro =>
      match builder ro t body with
      | .ok o => .ok o
      | .error msg => .error [.builderErr t.1 (deriveMessage msg)]

/-- The default (unpatched) builder: it simply returns the directive built by
the matched rule and never raises. -/
def defaultBuilder (ro : RuleOut) (_t : PTok) (_body : List PTok) :
    Except String (Option Directive) :=
  .ok (match ro with
       | .entry d => some d
       | .noEntry => none)

/-- Reduction of one directive segment with the default builder. -/
def reduceDirective : PTok → List PTok → Except (List ParseErr) (Option Directive) :=
  reduceGen defaultBuilder

/-- The parser's resynchronization state (spec design note: an explicit
resynchronization scan): either nothing is in progress, or tokens are being
skipped until the next directive-start token, or a directive segment
(head token plus body so far) is being accumulated. -/
inductive Mode
  | idle
  | junk
  | active (head : PTok) (body : List PTok)
deriving DecidableEq, Repr

/-- The state threaded through the parse loop: the mode plus the entries and
errors accumulated so far. -/
structure PState where
  mode : Mode
  entries : List Directive
  errors : List ParseErr
deriving DecidableEq, Repr

/-- Close the segment in progress, if any: reduce it and record its entry or
its errors.  Skipped junk produces nothing further (its error was recorded
when skipping began). -/
def closeMode (reduce : PTok → List PTok → Except (List ParseErr) (Option Directive))
    (st : PState) : PState :=
  match st.mode with
  | .idle => { st with mode := .idle }
  | .junk => { st with mode := .idle }
  | .active h b =>
    match reduce h b with
    | .ok (some d) => ⟨.idle, st.entries ++ [d], st.errors⟩
    | .ok none => ⟨.idle, st.entries, st.errors⟩
    | .error es => ⟨.idle, st.entries, st.errors ++ es⟩

/-- One `ParserSyntaxError` for an unexpected top-level token, unless it is an
ERROR token whose `LexerError` was already recorded (spec section 4.3). -/
def skipErrors (p : PTok) : List ParseErr :=
  match p.2 with
  | .errTok _ => []
  | _ => [.synErr p.1 "syntax error"]

/-- Modelled from the spec: one step of the parser's token scan (spec section
4.3 and design notes): a directive-start token closes the segment in progress
and starts a new one; any other token extends the segment in progress, or ---
at top level --- records one syntax error and switches to skipping until the
next directive-start token. -/
def feed (reduce : PTok → List PTok → Except (List ParseErr) (Option Directive))
    (st : PState) (t : PTok) : PState :=
  if isDirectiveStart t.2 then
    let st1 := closeMode reduce st
    { st1 with mode := .active t [] }
  else
    match st.mode with
    | .active h b => { st with mode := .active h (b ++ [t]) }
    | .junk => st
    | .idle => { st with mode := .junk, errors := st.errors ++ skipErrors t }

/-- Modelled from the spec: the whole parse of a token sequence (spec section
4.3): scan every token, close the final segment, and expose the entry list
and the error list (lexer-channel errors first).  The function is total ---
no failure escapes the parser boundary. -/
def parseTokens (reduce : PTok → List PTok → Except (List ParseErr) (Option Directive))
    (ts : List PTok) : List Directive × List ParseErr :=
  let st := closeMode reduce (ts.foldl (feed reduce) ⟨.idle, [], []⟩)
  (st.entries, lexerErrors ts ++ st.errors)

/-- The tokens of one directive segment: its directive-start head token
followed by its body tokens. -/
def segToks (s : PTok × List PTok) : List PTok := s.1 :: s.2

/-- Concatenation of the token segments of a file. -/
def segsJoin : List (PTok × List PTok) → List PTok
  | [] => []
  | s :: rest => segToks s ++ segsJoin rest

/-- Concatenation of a list of lists, written out structurally. -/
def concatAll {α : Type} : List (List α) → List α
  | [] => []
  | l :: rest => l ++ concatAll rest

/-- The entry contributed by one segment under a given reduction, if any. -/
def segEntry (reduce : PTok → List PTok → Except (List ParseErr) (Option Directive))
    (s : PTok × List PTok) : Option Directive :=
  match reduce s.1 s.2 with
  | .ok o => o
  | .error _ => none

/-- The parse errors contributed by one segment under a given reduction. -/
def segErrs (reduce : PTok → List PTok → Except (List ParseErr) (Option Directive))
    (s : PTok × List PTok) : List ParseErr :=
  match reduce s.1 s.2 with
  | .ok _ => []
  | .error es => es

/-- Whether a reduction outcome is a failure. -/
def resultFails : Except (List ParseErr) (Option Directive) → Bool
  | .error _ => true
  | .ok _ => false

/-- The token segments of the five-directive input of
`test_grammar_syntax_error__multiple`: three well-formed open/close
directives surrounding two malformed ones (`open open` and `close close`). -/
def errRecoverySegs : List (PTok × List PTok) :=
  [((⟨"f", 1⟩, .dateTok 2000 1 1),
    [(⟨"f", 1⟩, .kw "open"), (⟨"f", 1⟩, .acct "Assets:Before")]),
   ((⟨"f", 2⟩, .dateTok 2000 1 2),
    [(⟨"f", 2⟩, .kw "open"), (⟨"f", 2⟩, .kw "open")]),
   ((⟨"f", 3⟩, .dateTok 2000 1 3),
    [(⟨"f", 3⟩, .kw "open"), (⟨"f", 3⟩, .acct "Assets:After")]),
   ((⟨"f", 4⟩, .dateTok 2000 1 4),
    [(⟨"f", 4⟩, .kw "close"), (⟨"f", 4⟩, .kw "close")]),
   ((⟨"f", 5⟩, .dateTok 2000 1 5),
    [(⟨"f", 5⟩, .kw "close"), (⟨"f", 5⟩, .acct "Assets:After")])]

def optList {α : Type} : Option α → List α
  | some a => [a]
  | none => []

/-- A fault-injected builder in the manner of the test suite's
`mock.patch(...pushtag, raise_exception)`: the `pushtag` callback raises,
every other callback behaves like the default builder. -/
def patchedPushtagBuilder (ro : RuleOut) (t : PTok) (body : List PTok) :
    Except String (Option Directive) :=
  match t.2 with
  | .kw "pushtag" => .error "Patched exception in parser"
  | _ => defaultBuilder ro t body

/-- The token segments of `test_grammar_exceptions__pushtag`: an open
directive, a pushtag line whose builder callback raises, and a close
directive. -/
def pushtagSegs : List (PTok × List PTok) :=
  [((⟨"g", 1⟩, .dateTok 2000 1 1),
    [(⟨"g", 1⟩, .kw "open"), (⟨"g", 1⟩, .acct "Assets:Before")]),
   ((⟨"g", 2⟩, .kw "pushtag"), [(⟨"g", 2⟩, .tagTok "sometag")]),
   ((⟨"g", 3⟩, .dateTok 2010 1 1),
    [(⟨"g", 3⟩, .kw "close"), (⟨"g", 3⟩, .acct "Assets:Before")])]

/-- Split a token run at the closing `}` of a cost clause, returning the
tokens before it and the tokens after it. -/
def splitAtR : List Token → Option (List Token × List Token)
  | [] => none
  | .rbrace :: rest => some ([], rest)
  | t :: rest => (splitAtR rest).map (fun p => (t :: p.1, p.2))

/-- Split a token run at the closing `}}` of a total-cost clause. -/
def splitAtRR : List Token → Option (List Token × List Token)
  | [] => none
  | .drbrace :: rest => some ([], rest)
  | t :: rest => (splitAtRR rest).map (fun p => (t :: p.1, p.2))

/-- Split the inside of a cost clause into its comma-separated component
token runs (spec section 6: "Cost clause components, order-independent,
comma-separated"). -/
def splitComma : List Token → List (List Token)
  | [] => [[]]
  | .comma :: rest => [] :: splitComma rest
  | t :: rest =>
    match splitComma rest with
    | [] => [[t]]
    | g :: gs => (t :: g) :: gs

/-- Modelled from the spec: one cost-clause component (spec section 6):
`NUMBER CURRENCY` (per-unit), `# NUMBER CURRENCY` (total-only),
`NUMBER # NUMBER CURRENCY` (both), `NUMBER # CURRENCY` (per-unit with empty
total), `# CURRENCY` and bare `CURRENCY` (currency only), a date literal, a
quoted label, or the merge marker `*`. -/
def parseOneComp : List Token → Option LotComponent
  | [.num a1, .cur c] => some (.compAmount ⟨some a1, none, some c⟩)
  | [.num a1, .hashTok, .num a2, .cur c] => some (.compAmount ⟨some a1, some a2, some c⟩)
  | [.num a1, .hashTok, .cur c] => some (.compAmount ⟨some a1, none, some c⟩)
  | [.hashTok, .num a2, .cur c] => some (.compAmount ⟨none, some a2, some c⟩)
  | [.hashTok, .cur c] => some (.compAmount ⟨none, none, some c⟩)
  | [.cur c] => some (.compAmount ⟨none, none, some c⟩)
  | [.dateTok y m d] => some (.lotDate ⟨y, m, d⟩)
  | [.strTok s] => some (.lotLabel s)
  | [.star] => some .lotMerge
  | _ => none

/-- Parse every comma-separated component run of a cost clause. -/
def parseCompList : List (List Token) → Option (List LotComponent)
  | [] => some []
  | g :: gs =>
    match parseOneComp g with
    | none => none
    | some c => (parseCompList gs).map (fun cs => c :: cs)

/-- Modelled from the spec: the contents of a single-brace cost clause
`{...}` as an unordered component list; an empty clause is the empty list. -/
def parseLotComponents (ts : List Token) : Option (List LotComponent) :=
  match ts with
  | [] => some []
  | _ => parseCompList (splitComma ts)

/-- The syntactic shape of one posting line that the claims exercise:
account, optional units, optional cost-clause component list. -/
structure PostingSyn where
  account : String
  units : Option (ℚ × String)
  cost : Option (List LotComponent)
deriving DecidableEq, Repr

/-- Modelled from the spec: the posting grammar
`ACCOUNT [NUMBER CURRENCY] [{COST-CLAUSE}|{{TOTAL-COST-CLAUSE}}]` (spec
section 6).  A double-brace total-cost clause `{{ NUMBER CURRENCY }}` always
builds the `CompoundAmount` with `per_unit` equal to exact zero and the
parsed value as `total` (spec section 4.6), whereas the single-brace
total-only component `# NUMBER CURRENCY` leaves `per_unit` absent. -/
def parsePosting : List Token → Option PostingSyn
  | .acct a :: rest =>
    (match rest with
     | [] => some ⟨a, none, none⟩
     | .num n :: .cur c :: rest2 =>
       (match rest2 with
        | [] => some ⟨a, some (n, c), none⟩
        | .lbrace :: more =>
          (match splitAtR more with
           | some (inner, []) =>
             (parseLotComponents inner).map (fun comps => ⟨a, some (n, c), some comps⟩)
           | _ => none)
        | .dlbrace :: more =>
          (match splitAtRR more with
           | some ([.num v, .cur cc], []) =>
             some ⟨a, some (n, c), some [.compAmount ⟨some 0, some v, some cc⟩]⟩
           | _ => none)
        | _ => none)
     | _ => none)
  | _ => none

theorem orO_none {α : Type} (b : Option α) : orO none b = b := rfl

theorem orO_some {α : Type} (a : α) (b : Option α) : orO (some a) b = some a := rfl

theorem lotFold_count_dupCost (comps : List LotComponent) :
    ∀ cc dt lb mg, (lotFold cc dt lb mg comps).errors.count .dupCost
      = (if cc.isSome then comps.countP LotComponent.isCost
         else comps.countP LotComponent.isCost - 1) := by
  induction comps with
  | nil => intro cc dt lb mg; cases cc <;> simp [lotFold]
  | cons c rest ih =>
    intro cc dt lb mg
    cases c with
    | compAmount ca =>
      cases cc with
      | none =>
        simp [lotFold, List.countP_cons, LotComponent.isCost, ih]
      | some c0 =>
        simp [lotFold, List.countP_cons, List.count_cons, LotComponent.isCost, ih]
    | lotDate d =>
      cases dt with
      | none => simp [lotFold, List.countP_cons, LotComponent.isCost, ih]
      | some d0 =>
        have := ih cc (some d0)
        simp [lotFold, List.countP_cons, List.count_cons, LotComponent.isCost, this]
    | lotLabel s =>
      cases lb with
      | none =>
        have := ih cc dt (some s)
        simp [lotFold, List.countP_cons, List.count_cons, LotComponent.isCost, this]
      | some s0 =>
        have := ih cc dt (some s0)
        simp [lotFold, List.countP_cons, List.count_cons, LotComponent.isCost, this]
    | lotMerge =>
      cases mg with
      | none =>
        have := ih cc dt lb (some true)
        simp [lotFold, List.countP_cons, List.count_cons, LotComponent.isCost, this]
      | some b =>
        have := ih cc dt lb (some b)
        simp [lotFold, List.countP_cons, List.count_cons, LotComponent.isCost, this]

theorem lotFold_count_dupDate (comps : List LotComponent) :
    ∀ cc dt lb mg, (lotFold cc dt lb mg comps).errors.count .dupDate
      = (if dt.isSome then comps.countP LotComponent.isDate
         else comps.countP LotComponent.isDate - 1) := by
  induction comps with
  | nil => intro cc dt lb mg; cases dt <;> simp [lotFold]
  | cons c rest ih =>
    intro cc dt lb mg
    cases c with
    | compAmount ca =>
      cases cc with
      | none => simp [lotFold, List.countP_cons, LotComponent.isDate, ih]
      | some c0 =>
        have := ih (some c0) dt
        simp [lotFold, List.countP_cons, List.count_cons, LotComponent.isDate, this]
    | lotDate d =>
      cases dt with
      | none => simp [lotFold, List.countP_cons, LotComponent.isDate, ih]
      | some d0 =>
        have := ih cc (some d0)
        simp [lotFold, List.countP_cons, List.count_cons, LotComponent.isDate, this]
    | lotLabel s =>
      cases lb with
      | none =>
        have := ih cc dt (some s)
        simp [lotFold, List.countP_cons, List.count_cons, LotComponent.isDate, this]
      | some s0 =>
        have := ih cc dt (some s0)
        simp [lotFold, List.countP_cons, List.count_cons, LotComponent.isDate, this]
    | lotMerge =>
      cases mg with
      | none =>
        have := ih cc dt lb (some true)
        simp [lotFold, List.countP_cons, List.count_cons, LotComponent.isDate, this]
      | some b =>
        have := ih cc dt lb (some b)
        simp [lotFold, List.countP_cons, List.count_cons, LotComponent.isDate, this]

theorem lotFold_count_dupLabel (comps : List LotComponent) :
    ∀ cc dt lb mg, (lotFold cc dt lb mg comps).errors.count .dupLabel
      = (if lb.isSome then comps.countP LotComponent.isLabel
         else comps.countP LotComponent.isLabel - 1) := by
  induction comps with
  | nil => intro cc dt lb mg; cases lb <;> simp [lotFold]
  | cons c rest ih =>
    intro cc dt lb mg
    cases c with
    | compAmount ca =>
      cases cc with
      | none => simp [lotFold, List.countP_cons, LotComponent.isLabel, ih]
      | some c0 =>
        have := ih (some c0) dt
        simp [lotFold, List.countP_cons, List.count_cons, LotComponent.isLabel, this]
    | lotDate d =>
      cases dt with
      | none => simp [lotFold, List.countP_cons, LotComponent.isLabel, ih]
      | some d0 =>
        have := ih cc (some d0)
        simp [lotFold, List.countP_cons, List.count_cons, LotComponent.isLabel, this]
    | lotLabel s =>
      cases lb with
      | none =>
        have := ih cc dt (some s)
        simp [lotFold, List.countP_cons, List.count_cons, LotComponent.isLabel, this]
      | some s0 =>
        have := ih cc dt (some s0)
        simp [lotFold, List.countP_cons, List.count_cons, LotComponent.isLabel, this]
    | lotMerge =>
      cases mg with
      | none =>
        have := ih cc dt lb (some true)
        simp [lotFold, List.countP_cons, List.count_cons, LotComponent.isLabel, this]
      | some b =>
        have := ih cc dt lb (some b)
        simp [lotFold, List.countP_cons, List.count_cons, LotComponent.isLabel, this]

theorem lotFold_count_dupMerge (comps : List LotComponent) :
    ∀ cc dt lb mg, (lotFold cc dt lb mg comps).errors.count .dupMerge
      = (if mg.isSome then comps.countP LotComponent.isMerge
         else comps.countP LotComponent.isMerge - 1) := by
  induction comps with
  | nil => intro cc dt lb mg; cases mg <;> simp [lotFold]
  | cons c rest ih =>
    intro cc dt lb mg
    cases c with
    | compAmount ca =>
      cases cc with
      | none => simp [lotFold, List.countP_cons, LotComponent.isMerge, ih]
      | some c0 =>
        have := ih (some c0) dt
        simp [lotFold, List.countP_cons, List.count_cons, LotComponent.isMerge, this]
    | lotDate d =>
      cases dt with
      | none => simp [lotFold, List.countP_cons, LotComponent.isMerge, ih]
      | some d0 =>
        have := ih cc (some d0)
        simp [lotFold, List.countP_cons, List.count_cons, LotComponent.isMerge, this]
    | lotLabel s =>
      cases lb with
      | none =>
        have := ih cc dt (some s)
        simp [lotFold, List.countP_cons, List.count_cons, LotComponent.isMerge, this]
      | some s0 =>
        have := ih cc dt (some s0)
        simp [lotFold, List.countP_cons, List.count_cons, LotComponent.isMerge, this]
    | lotMerge =>
      cases mg with
      | none =>
        have := ih cc dt lb (some true)
        simp [lotFold, List.countP_cons, List.count_cons, LotComponent.isMerge, this]
      | some b =>
        have := ih cc dt lb (some b)
        simp [lotFold, List.countP_cons, List.count_cons, LotComponent.isMerge, this]

theorem lotFold_count_labelUnsupported (comps : List LotComponent) :
    ∀ cc dt lb mg, (lotFold cc dt lb mg comps).errors.count .labelUnsupported
      = (if lb.isSome then 0 else min 1 (comps.countP LotComponent.isLabel)) := by
  induction comps with
  | nil => intro cc dt lb mg; cases lb <;> simp [lotFold]
  | cons c rest ih =>
    intro cc dt lb mg
    cases c with
    | compAmount ca =>
      cases cc with
      | none => simp [lotFold, List.countP_cons, LotComponent.isLabel, ih]
      | some c0 =>
        have := ih (some c0) dt
        simp [lotFold, List.countP_cons, List.count_cons, LotComponent.isLabel, this]
    | lotDate d =>
      cases dt with
      | none => simp [lotFold, List.countP_cons, LotComponent.isLabel, ih]
      | some d0 =>
        have := ih cc (some d0)
        simp [lotFold, List.countP_cons, List.count_cons, LotComponent.isLabel, this]
    | lotLabel s =>
      cases lb with
      | none =>
        have := ih cc dt (some s)
        simp only [lotFold, List.countP_cons, List.count_cons, LotComponent.isLabel, this]
        simp
      | some s0 =>
        have := ih cc dt (some s0)
        simp [lotFold, List.countP_cons, List.count_cons, LotComponent.isLabel, this]
    | lotMerge =>
      cases mg with
      | none =>
        have := ih cc dt lb (some true)
        simp [lotFold, List.countP_cons, List.count_cons, LotComponent.isLabel, this]
      | some b =>
        have := ih cc dt lb (some b)
        simp [lotFold, List.countP_cons, List.count_cons, LotComponent.isLabel, this]

theorem lotFold_count_mergeUnsupported (comps : List LotComponent) :
    ∀ cc dt lb mg, (lotFold cc dt lb mg comps).errors.count .mergeUnsupported
      = (if mg.isSome then 0 else min 1 (comps.countP LotComponent.isMerge)) := by
  induction comps with
  | nil => intro cc dt lb mg; cases mg <;> simp [lotFold]
  | cons c rest ih =>
    intro cc dt lb mg
    cases c with
    | compAmount ca =>
      cases cc with
      | none => simp [lotFold, List.countP_cons, LotComponent.isMerge, ih]
      | some c0 =>
        have := ih (some c0) dt
        simp [lotFold, List.countP_cons, List.count_cons, LotComponent.isMerge, this]
    | lotDate d =>
      cases dt with
      | none => simp [lotFold, List.countP_cons, LotComponent.isMerge, ih]
      | some d0 =>
        have := ih cc (some d0)
        simp [lotFold, List.countP_cons, List.count_cons, LotComponent.isMerge, this]
    | lotLabel s =>
      cases lb with
      | none =>
        have := ih cc dt (some s)
        simp [lotFold, List.countP_cons, List.count_cons, LotComponent.isMerge, this]
      | some s0 =>
        have := ih cc dt (some s0)
        simp [lotFold, List.countP_cons, List.count_cons, LotComponent.isMerge, this]
    | lotMerge =>
      cases mg with
      | none =>
        have := ih cc dt lb (some true)
        simp only [lotFold, List.countP_cons, List.count_cons, LotComponent.isMerge, this]
        simp
      | some b =>
        have := ih cc dt lb (some b)
        simp [lotFold, List.countP_cons, List.count_cons, LotComponent.isMerge, this]

theorem lotFold_compound_cost (comps : List LotComponent) :
    ∀ cc dt lb mg, (lotFold cc dt lb mg comps).compound_cost
      = orO cc (comps.filterMap LotComponent.getCost).head? := by
  induction comps with
  | nil => intro cc dt lb mg; cases cc <;> simp [lotFold, orO]
  | cons c rest ih =>
    intro cc dt lb mg
    cases c with
    | compAmount ca =>
      cases cc with
      | none => simp [lotFold, LotComponent.getCost, ih, orO]
      | some c0 =>
        have := ih (some c0) dt
        simp [lotFold, LotComponent.getCost, this, orO]
    | lotDate d =>
      cases dt with
      | none => simp [lotFold, LotComponent.getCost, ih]
      | some d0 =>
        have := ih cc (some d0)
        simp [lotFold, LotComponent.getCost, this]
    | lotLabel s =>
      cases lb with
      | none =>
        have := ih cc dt (some s)
        simp [lotFold, LotComponent.getCost, this]
      | some s0 =>
        have := ih cc dt (some s0)
        simp [lotFold, LotComponent.getCost, this]
    | lotMerge =>
      cases mg with
      | none =>
        have := ih cc dt lb (some true)
        simp [lotFold, LotComponent.getCost, this]
      | some b =>
        have := ih cc dt lb (some b)
        simp [lotFold, LotComponent.getCost, this]

theorem lotFold_lot_date (comps : List LotComponent) :
    ∀ cc dt lb mg, (lotFold cc dt lb mg comps).lot_date
      = orO dt (comps.filterMap LotComponent.getDate).head? := by
  induction comps with
  | nil => intro cc dt lb mg; cases dt <;> simp [lotFold, orO]
  | cons c rest ih =>
    intro cc dt lb mg
    cases c with
    | compAmount ca =>
      cases cc with
      | none => simp [lotFold, LotComponent.getDate, ih]
      | some c0 =>
        have := ih (some c0) dt
        simp [lotFold, LotComponent.getDate, this]
    | lotDate d =>
      cases dt with
      | none => simp [lotFold, LotComponent.getDate, ih, orO]
      | some d0 =>
        have := ih cc (some d0)
        simp [lotFold, LotComponent.getDate, this, orO]
    | lotLabel s =>
      cases lb with
      | none =>
        have := ih cc dt (some s)
        simp [lotFold, LotComponent.getDate, this]
      | some s0 =>
        have := ih cc dt (some s0)
        simp [lotFold, LotComponent.getDate, this]
    | lotMerge =>
      cases mg with
      | none =>
        have := ih cc dt lb (some true)
        simp [lotFold, LotComponent.getDate, this]
      | some b =>
        have := ih cc dt lb (some b)
        simp [lotFold, LotComponent.getDate, this]

theorem lotFold_label (comps : List LotComponent) :
    ∀ cc dt lb mg, (lotFold cc dt lb mg comps).label
      = orO lb (comps.filterMap LotComponent.getLabel).head? := by
  induction comps with
  | nil => intro cc dt lb mg; cases lb <;> simp [lotFold, orO]
  | cons c rest ih =>
    intro cc dt lb mg
    cases c with
    | compAmount ca =>
      cases cc with
      | none => simp [lotFold, LotComponent.getLabel, ih]
      | some c0 =>
        have := ih (some c0) dt
        simp [lotFold, LotComponent.getLabel, this]
    | lotDate d =>
      cases dt with
      | none => simp [lotFold, LotComponent.getLabel, ih]
      | some d0 =>
        have := ih cc (some d0)
        simp [lotFold, LotComponent.getLabel, this]
    | lotLabel s =>
      cases lb with
      | none =>
        have := ih cc dt (some s)
        simp [lotFold, LotComponent.getLabel, this, orO]
      | some s0 =>
        have := ih cc dt (some s0)
        simp [lotFold, LotComponent.getLabel, this, orO]
    | lotMerge =>
      cases mg with
      | none =>
        have := ih cc dt lb (some true)
        simp [lotFold, LotComponent.getLabel, this]
      | some b =>
        have := ih cc dt lb (some b)
        simp [lotFold, LotComponent.getLabel, this]

theorem lotFold_merge (comps : List LotComponent) :
    ∀ cc dt lb mg, (lotFold cc dt lb mg comps).merge
      = orO mg (if comps.any LotComponent.isMerge then some true else none) := by
  induction comps with
  | nil => intro cc dt lb mg; cases mg <;> simp [lotFold, orO]
  | cons c rest ih =>
    intro cc dt lb mg
    cases c with
    | compAmount ca =>
      cases cc with
      | none => simp [lotFold, LotComponent.isMerge, ih]
      | some c0 =>
        have := ih (some c0) dt
        simp [lotFold, LotComponent.isMerge, this]
    | lotDate d =>
      cases dt with
      | none => simp [lotFold, LotComponent.isMerge, ih]
      | some d0 =>
        have := ih cc (some d0)
        simp [lotFold, LotComponent.isMerge, this]
    | lotLabel s =>
      cases lb with
      | none =>
        have := ih cc dt (some s)
        simp [lotFold, LotComponent.isMerge, this]
      | some s0 =>
        have := ih cc dt (some s0)
        simp [lotFold, LotComponent.isMerge, this]
    | lotMerge =>
      cases mg with
      | none =>
        have := ih cc dt lb (some true)
        simp [lotFold, LotComponent.isMerge, this, orO]
      | some b =>
        have := ih cc dt lb (some b)
        simp [lotFold, LotComponent.isMerge, this, orO]

/-- Claim C3, counterexample: a cost clause whose compound-amount kind occurs
three times (more than once) yields two "Duplicate cost" errors, not exactly
one, so the claim that a kind occurring more than once yields exactly one
duplicate error fails at this input. -/
theorem lot_spec_three_costs_not_one_error :
    (lot_spec (some "AAPL")
      [.compAmount ⟨some (4523/100), none, some "USD"⟩,
       .compAmount ⟨some (4524/100), none, some "USD"⟩,
       .compAmount ⟨some (4525/100), none, some "USD"⟩]).2.count .dupCost = 2
    ∧ ¬ (lot_spec (some "AAPL")
      [.compAmount ⟨some (4523/100), none, some "USD"⟩,
       .compAmount ⟨some (4524/100), none, some "USD"⟩,
       .compAmount ⟨some (4525/100), none, some "USD"⟩]).2.count .dupCost = 1 := by
  constructor <;> decide

/-- Claim C3 (amended): when folding the unordered component list of a cost
clause into a `LotSpec`, each occurrence of a component kind (compound amount,
date, label, merge marker) beyond the first yields one corresponding
"Duplicate cost"/"Duplicate date"/"Duplicate label"/"Duplicate merge" error
(so a kind occurring k >= 2 times yields k - 1 duplicate errors) with the
first occurrence kept; independently of duplication, any label yields exactly
one additional "Labels not supported" error while the (first) label text is
still stored in the `LotSpec`, and any merge marker yields exactly one
additional "Merge-cost not supported" error; the fold is total and never
halts on these errors. -/
theorem lot_spec_fold_properties (cur : Option String) (comps : List LotComponent) :
    (lot_spec cur comps).2.count .dupCost = comps.countP LotComponent.isCost - 1
  ∧ (lot_spec cur comps).2.count .dupDate = comps.countP LotComponent.isDate - 1
  ∧ (lot_spec cur comps).2.count .dupLabel = comps.countP LotComponent.isLabel - 1
  ∧ (lot_spec cur comps).2.count .dupMerge = comps.countP LotComponent.isMerge - 1
  ∧ (lot_spec cur comps).2.count .labelUnsupported
      = min 1 (comps.countP LotComponent.isLabel)
  ∧ (lot_spec cur comps).2.count .mergeUnsupported
      = min 1 (comps.countP LotComponent.isMerge)
  ∧ (lot_spec cur comps).1.compound_cost = (comps.filterMap LotComponent.getCost).head?
  ∧ (lot_spec cur comps).1.lot_date = (comps.filterMap LotComponent.getDate).head?
  ∧ (lot_spec cur comps).1.label = (comps.filterMap LotComponent.getLabel).head?
  ∧ (lot_spec cur comps).1.merge
      = (if comps.any LotComponent.isMerge then some true else none)
  ∧ (lot_spec cur comps).1.currency = cur := by
  refine ⟨?_, ?_, ?_, ?_, ?_, ?_, ?_, ?_, ?_, ?_, rfl⟩
  · simpa using lotFold_count_dupCost comps none none none none
  · simpa using lotFold_count_dupDate comps none none none none
  · simpa using lotFold_count_dupLabel comps none none none none
  · simpa using lotFold_count_dupMerge comps none none none none
  · simpa using lotFold_count_labelUnsupported comps none none none none
  · simpa using lotFold_count_mergeUnsupported comps none none none none
  · simpa [orO] using lotFold_compound_cost comps none none none none
  · simpa [orO] using lotFold_lot_date comps none none none none
  · simpa [orO] using lotFold_label comps none none none none
  · simpa [orO] using lotFold_merge comps none none none none

/-- Claim C9: a cost-lot clause naming only a currency (as in `2 HOOL {USD}`,
which parses to the single component `CompoundAmount(None, None, "USD")`) and
an entirely empty clause (as in `2 HOOL {}`, an empty component list) produce
distinct `LotSpec` values: the former stores a compound cost carrying the
clause currency, the latter stores no compound cost at all, exactly as pinned
by `test_missing_cost_amount` / `test_missing_cost_number`; neither records
any error. -/
theorem currency_only_clause_distinct_from_empty :
    parseLotComponents [] = some []
  ∧ parseLotComponents [.cur "USD"] = some [.compAmount ⟨none, none, some "USD"⟩]
  ∧ (lot_spec (some "HOOL") []).1 = ⟨some "HOOL", none, none, none, none⟩
  ∧ (lot_spec (some "HOOL") [.compAmount ⟨none, none, some "USD"⟩]).1
      = ⟨some "HOOL", some ⟨none, none, some "USD"⟩, none, none, none⟩
  ∧ (lot_spec (some "HOOL") []).1
      ≠ (lot_spec (some "HOOL") [.compAmount ⟨none, none, some "USD"⟩]).1
  ∧ (lot_spec (some "HOOL") []).2 = []
  ∧ (lot_spec (some "HOOL") [.compAmount ⟨none, none, some "USD"⟩]).2 = [] := by
  refine ⟨rfl, rfl, rfl, rfl, by decide, rfl, rfl⟩

theorem orO_none_right {α : Type} (a : Option α) : orO a none = a := by
  cases a <;> rfl

theorem metaLookup_append (acc : List (String × Option MetaValue)) (k : String)
    (v : Option MetaValue) (key : String) :
    metaLookup (acc ++ [(k, v)]) key
      = orO (metaLookup acc key) (if k = key then some v else none) := by
  induction acc with
  | nil => simp [metaLookup, orO]
  | cons p rest ih =>
    obtain ⟨k0, v0⟩ := p
    by_cases h : k0 = key
    · simp [metaLookup, h, orO]
    · simp [metaLookup, h, ih]

theorem buildMetaAux_lookup (kvs : List (String × Option MetaValue)) :
    ∀ acc key, metaLookup (buildMetaAux acc kvs).1 key
      = orO (metaLookup acc key) (metaLookup kvs key) := by
  induction kvs with
  | nil => intro acc key; simp [buildMetaAux, metaLookup, orO_none_right]
  | cons p rest ih =>
    intro acc key
    obtain ⟨k, v⟩ := p
    by_cases hk : (metaLookup acc k).isSome
    · obtain ⟨w, hw⟩ := Option.isSome_iff_exists.mp hk
      by_cases hkey : k = key
      · subst hkey
        simp [buildMetaAux, hk, metaLookup, ih, hw, orO]
      · simp [buildMetaAux, hk, metaLookup, hkey, ih]
    · have hnone : metaLookup acc k = none := by
        cases h : metaLookup acc k with
        | none => rfl
        | some w => rw [h] at hk; simp at hk
      by_cases hkey : k = key
      · subst hkey
        simp [buildMetaAux, hk, metaLookup, ih, metaLookup_append, hnone, orO]
      · simp [buildMetaAux, hk, metaLookup, hkey, ih, metaLookup_append, orO_none_right]

theorem buildMetaAux_count (kvs : List (String × Option MetaValue)) :
    ∀ acc key, (buildMetaAux acc kvs).2.count (.dup key)
      = (if (metaLookup acc key).isSome
         then kvs.countP (fun kv => kv.1 == key)
         else kvs.countP (fun kv => kv.1 == key) - 1) := by
  induction kvs with
  | nil => intro acc key; cases h : (metaLookup acc key).isSome <;> simp [buildMetaAux, h]
  | cons p rest ih =>
    intro acc key
    obtain ⟨k, v⟩ := p
    by_cases hk : (metaLookup acc k).isSome
    · by_cases hkey : k = key
      · subst hkey
        simp [buildMetaAux, hk, List.count_cons, List.countP_cons, ih, hk]
      · have : (MetaErr.dup k = MetaErr.dup key) = False := by simp [hkey]
        simp [buildMetaAux, hk, List.count_cons, List.countP_cons, ih, hkey]
    · have hnone : metaLookup acc k = none := by
        cases h : metaLookup acc k with
        | none => rfl
        | some w => rw [h] at hk; simp at hk
      by_cases hkey : k = key
      · subst hkey
        have happ : (metaLookup (acc ++ [(k, v)]) k).isSome := by
          simp [metaLookup_append, hnone, orO]
        simp [buildMetaAux, hk, List.countP_cons, ih, happ, hnone]
      · have happ : metaLookup (acc ++ [(k, v)]) key = metaLookup acc key := by
          simp [metaLookup_append, hkey, orO_none_right]
        simp [buildMetaAux, hk, List.countP_cons, ih, happ, hkey]

/-- Claim C7: when a metadata key is repeated at the same nesting level on an
entry or posting, the first occurrence wins (lookup in the accumulated meta
equals lookup of the first binding in the input lines) and each repetition
records one "Duplicate ... metadata field" error (k occurrences of a key give
k - 1 duplicate errors); a metadata line with no value after the colon is
legal, records no error, and stores an absent value under its key. -/
theorem metadata_first_wins (kvs : List (String × Option MetaValue)) (key : String) :
    metaLookup (buildMeta kvs).1 key = metaLookup kvs key
  ∧ (buildMeta kvs).2.count (.dup key)
      = kvs.countP (fun kv => kv.1 == key) - 1
  ∧ (∀ (k : String), buildMeta [(k, none)] = ([(k, none)], []))
  ∧ (∀ (k : String), metaLookup (buildMeta [(k, none)]).1 k = some none) := by
  refine ⟨?_, ?_, ?_, ?_⟩
  · simpa [orO] using buildMetaAux_lookup kvs [] key
  · simpa using buildMetaAux_count kvs [] key
  · intro k; simp [buildMeta, buildMetaAux, metaLookup]
  · intro k; simp [buildMeta, buildMetaAux, metaLookup]

/-- Claim C8: a `pushtag` left without a matching `poptag` by end of input
yields exactly one "Unbalanced tag" error; a `poptag` naming a tag not
currently pushed yields exactly one "absent tag" error and leaves the tag
stack unchanged. -/
theorem tag_stack_balance (t : String) (tags : List String) (h : t ∉ tags) :
    finalizeTags (pushtag [] t) = [.unbalanced t]
  ∧ poptag tags t = (tags, [.absent t])
  ∧ (poptag tags t).1 = tags := by
  refine ⟨rfl, ?_, ?_⟩ <;> simp [poptag, h]

/-- Witness for claim C8 at a concrete input: the tag of
`test_tag_left_unclosed` / `test_pop_invalid_tag` against an empty stack. -/
theorem tag_stack_balance_witness :
    finalizeTags (pushtag [] "trip-to-nowhere") = [.unbalanced "trip-to-nowhere"]
  ∧ poptag [] "trip-to-nowhere" = ([], [.absent "trip-to-nowhere"])
  ∧ (poptag [] "trip-to-nowhere").1 = [] :=
  tag_stack_balance "trip-to-nowhere" [] (by simp)

/-- Claim C5, counterexample: a posting with a negative cost value and the
override unset (the input of `test_cost_negative`:
`Assets:Investments:MSFT -10 MSFT {-200.00 USD}`) produces no parse-time
error at all, so the claim that a negative cost value is rejected at parse
time with a "Negative ... not allowed" error fails at this input; the
negative cost is stored unchanged. -/
theorem negative_cost_not_rejected :
    (postingBuild false ⟨"f", 2⟩ "Assets:Investments:MSFT"
      ⟨some (-10), (lot_spec (some "MSFT")
        [.compAmount ⟨some (-200), none, some "USD"⟩]).1⟩
      none false).2 = []
  ∧ (postingBuild false ⟨"f", 2⟩ "Assets:Investments:MSFT"
      ⟨some (-10), (lot_spec (some "MSFT")
        [.compAmount ⟨some (-200), none, some "USD"⟩]).1⟩
      none false).1.pos
      = some ⟨some (-10), ⟨some "MSFT", some ⟨some (-200), none, some "USD"⟩,
              none, none, none⟩⟩
  ∧ ((-200 : ℚ) < 0) := by
  refine ⟨rfl, rfl, by decide⟩

/-- Claim C5 (amended): a negative price value is rejected at parse time with
exactly one "Negative ... not allowed" error unless the allow-negative-prices
override is set; when the override is set no error is recorded and the
algebraic sign of the price is preserved exactly as written; a negative cost
value is not checked at parse time at all: the recorded errors do not depend
on the lot (hence not on its cost), negative or otherwise. -/
theorem negative_price_rejected (loc : SourceLoc) (account : String)
    (pos : Position) (pn : ℚ) (pc : Option String) (h : pn < 0) :
    (postingBuild false loc account pos (some ⟨some pn, pc⟩) false).2
      = [.builderErr loc "Negative prices are not allowed"]
  ∧ (postingBuild true loc account pos (some ⟨some pn, pc⟩) false).2 = []
  ∧ (postingBuild true loc account pos (some ⟨some pn, pc⟩) false).1.price
      = some ⟨some pn, pc⟩
  ∧ (∀ (ov : Bool) (n : Option ℚ) (lot1 lot2 : LotSpec) (pr : Option Amount)
       (istotal : Bool),
      (postingBuild ov loc account ⟨n, lot1⟩ pr istotal).2
        = (postingBuild ov loc account ⟨n, lot2⟩ pr istotal).2) := by
  refine ⟨?_, ?_, ?_, ?_⟩
  · simp [postingBuild, h]
  · simp [postingBuild]
  · simp [postingBuild]
  · intro ov n lot1 lot2 pr istotal
    simp [postingBuild]

/-- Witness for claim C5 at the concrete input of `test_price_negative` /
`TestAllowNegativePrices.test_price_negative`:
`Assets:Investments:MSFT -10 MSFT @ -200.00 USD`. -/
theorem negative_price_rejected_witness :
    (postingBuild false ⟨"f", 2⟩ "Assets:Investments:MSFT"
      ⟨some (-10), ⟨some "MSFT", none, none, none, none⟩⟩
      (some ⟨some (-200), some "USD"⟩) false).2
      = [.builderErr ⟨"f", 2⟩ "Negative prices are not allowed"]
  ∧ (postingBuild true ⟨"f", 2⟩ "Assets:Investments:MSFT"
      ⟨some (-10), ⟨some "MSFT", none, none, none, none⟩⟩
      (some ⟨some (-200), some "USD"⟩) false).2 = []
  ∧ (postingBuild true ⟨"f", 2⟩ "Assets:Investments:MSFT"
      ⟨some (-10), ⟨some "MSFT", none, none, none, none⟩⟩
      (some ⟨some (-200), some "USD"⟩) false).1.price
      = some ⟨some (-200), some "USD"⟩
  ∧ (∀ (ov : Bool) (n : Option ℚ) (lot1 lot2 : LotSpec) (pr : Option Amount)
       (istotal : Bool),
      (postingBuild ov ⟨"f", 2⟩ "Assets:Investments:MSFT" ⟨n, lot1⟩ pr istotal).2
        = (postingBuild ov ⟨"f", 2⟩ "Assets:Investments:MSFT" ⟨n, lot2⟩ pr istotal).2) :=
  negative_price_rejected ⟨"f", 2⟩ "Assets:Investments:MSFT"
    ⟨some (-10), ⟨some "MSFT", none, none, none, none⟩⟩ (-200) (some "USD")
    (by decide)

/-- Claim C6, counterexample: for the total-price posting of
`test_total_price_negative` (`-10 MSFT @@ 2000.00 USD`, override unset) the
stored per-unit price is `200 USD`, which is not the total price divided by
the unit number (`2000 / -10 = -200`), and its sign (positive) does not match
the unit number's algebraic sign (negative); so both parts of the claim fail
at this input. -/
theorem total_price_not_signed_division :
    (postingBuild false ⟨"f", 2⟩ "Assets:Investments:MSFT"
      ⟨some (-10), ⟨some "MSFT", none, none, none, none⟩⟩
      (some ⟨some 2000, some "USD"⟩) true).1.price
      = some ⟨some 200, some "USD"⟩
  ∧ (200 : ℚ) ≠ 2000 / (-10)
  ∧ ((0 : ℚ) < 200 ∧ (-10 : ℚ) < 0) := by
  refine ⟨?_, by norm_num, by norm_num, by norm_num⟩
  norm_num [postingBuild]

/-- Claim C6 (amended): for a complete posting written with total-price
syntax, the stored price is a single per-unit amount obtained by dividing the
total price by the signed unit number when the allow-negative-prices override
is set, and by the absolute value of the unit number otherwise; hence the
per-unit price times the (signed resp. absolute) unit number recovers the
total, and with the override unset a non-negative total always yields a
non-negative per-unit price regardless of the unit number's sign. -/
theorem total_price_normalization (ov : Bool) (loc : SourceLoc) (account : String)
    (lot : LotSpec) (u t : ℚ) (c : String) (hu : u ≠ 0) :
    ∃ p : ℚ,
      (postingBuild ov loc account ⟨some u, lot⟩ (some ⟨some t, some c⟩) true).1.price
        = some ⟨some p, some c⟩
    ∧ p * (if ov then u else |u|) = t
    ∧ (ov = false → 0 ≤ t → 0 ≤ p) := by
  cases ov with
  | true =>
    refine ⟨t / u, ?_, ?_, ?_⟩
    · simp [postingBuild, hu]
    · simpa using div_mul_cancel₀ t hu
    · intro h; cases h
  | false =>
    have habs : |u| ≠ 0 := abs_ne_zero.mpr hu
    refine ⟨t / |u|, ?_, ?_, ?_⟩
    · simp [postingBuild, hu]
    · simpa using div_mul_cancel₀ t habs
    · intro _ ht
      exact div_nonneg ht (abs_nonneg u)

/-- Witness for claim C6 at the concrete input of `test_total_price_positive`:
`10 MSFT @@ 2000.00 USD` with the override unset. -/
theorem total_price_normalization_witness :
    ∃ p : ℚ,
      (postingBuild false ⟨"f", 2⟩ "Assets:Investments:MSFT"
        ⟨some 10, ⟨some "MSFT", none, none, none, none⟩⟩
        (some ⟨some 2000, some "USD"⟩) true).1.price
        = some ⟨some p, some "USD"⟩
    ∧ p * (if false then (10 : ℚ) else |(10 : ℚ)|) = 2000
    ∧ (false = false → (0 : ℚ) ≤ 2000 → 0 ≤ p) :=
  total_price_normalization false ⟨"f", 2⟩ "Assets:Investments:MSFT"
    ⟨some "MSFT", none, none, none, none⟩ 10 2000 "USD" (by decide)

theorem closeMode_mode
    (reduce : PTok → List PTok → Except (List ParseErr) (Option Directive))
    (st : PState) : (closeMode reduce st).mode = .idle := by
  rcases st with ⟨m, E, R⟩
  cases m with
  | idle => rfl
  | junk => rfl
  | active h b =>
    simp only [closeMode]
    rcases reduce h b with es | o
    · rfl
    · cases o <;> rfl

theorem foldl_feed_body
    (reduce : PTok → List PTok → Except (List ParseErr) (Option Directive))
    (body : List PTok) :
    ∀ (hd : PTok) (b0 : List PTok) (E : List Directive) (R : List ParseErr),
      (∀ u ∈ body, isDirectiveStart u.2 = false) →
      List.foldl (feed reduce) ⟨.active hd b0, E, R⟩ body
        = ⟨.active hd (b0 ++ body), E, R⟩ := by
  induction body with
  | nil => intro hd b0 E R _; simp
  | cons u rest ih =>
    intro hd b0 E R h
    have hu : isDirectiveStart u.2 = false := h u (by simp)
    have hrest : ∀ v ∈ rest, isDirectiveStart v.2 = false :=
      fun v hv => h v (by simp [hv])
    simp only [List.foldl_cons, feed, hu]
    simpa using ih hd (b0 ++ [u]) E R hrest

theorem foldl_feed_seg
    (reduce : PTok → List PTok → Except (List ParseErr) (Option Directive))
    (t : PTok) (body : List PTok) (st : PState)
    (ht : isDirectiveStart t.2 = true)
    (hb : ∀ u ∈ body, isDirectiveStart u.2 = false) :
    List.foldl (feed reduce) st (t :: body)
      = ⟨.active t body, (closeMode reduce st).entries,
         (closeMode reduce st).errors⟩ := by
  simp only [List.foldl_cons, feed, ht, if_pos]
  simpa using foldl_feed_body reduce body t [] (closeMode reduce st).entries
    (closeMode reduce st).errors hb

theorem parse_segs
    (reduce : PTok → List PTok → Except (List ParseErr) (Option Directive)) :
    ∀ (segs : List (PTok × List PTok)),
      (∀ s ∈ segs, isDirectiveStart s.1.2 = true) →
      (∀ s ∈ segs, ∀ u ∈ s.2, isDirectiveStart u.2 = false) →
      ∀ st : PState,
        closeMode reduce (List.foldl (feed reduce) st (segsJoin segs))
          = ⟨.idle, (closeMode reduce st).entries ++ segs.filterMap (segEntry reduce),
             (closeMode reduce st).errors ++ concatAll (segs.map (segErrs reduce))⟩ := by
  intro segs
  induction segs with
  | nil =>
    intro _ _ st
    have hm := closeMode_mode reduce st
    rcases e : closeMode reduce st with ⟨m, E, R⟩
    rw [e] at hm
    simp at hm
    subst hm
    simp [segsJoin, concatAll]
    exact e
  | cons s rest ih =>
    intro hstart hbody st
    obtain ⟨t, body⟩ := s
    have ht : isDirectiveStart t.2 = true := hstart (t, body) (by simp)
    have hb : ∀ u ∈ body, isDirectiveStart u.2 = false :=
      fun u hu => hbody (t, body) (by simp) u hu
    have hstart' : ∀ s ∈ rest, isDirectiveStart s.1.2 = true :=
      fun s hs => hstart s (by simp [hs])
    have hbody' : ∀ s ∈ rest, ∀ u ∈ s.2, isDirectiveStart u.2 = false :=
      fun s hs => hbody s (by simp [hs])
    have hjoin : segsJoin ((t, body) :: rest) = (t :: body) ++ segsJoin rest := by
      simp [segsJoin, segToks]
    rw [hjoin, List.foldl_append,
        foldl_feed_seg reduce t body st ht hb,
        ih hstart' hbody']
    have hclose : closeMode reduce
        ⟨.active t body, (closeMode reduce st).entries, (closeMode reduce st).errors⟩
        = ⟨.idle,
           (closeMode reduce st).entries
             ++ (match segEntry reduce (t, body) with
                 | some d => [d]
                 | none => []),
           (closeMode reduce st).errors ++ segErrs reduce (t, body)⟩ := by
      simp only [closeMode, segEntry, segErrs]
      rcases reduce t body with es | o
      · simp
      · cases o <;> simp
    rw [hclose]
    rcases h : segEntry reduce (t, body) with _ | d <;>
      simp [h, List.filterMap_cons, concatAll, List.append_assoc]

theorem lexerErrors_append (xs ys : List PTok) :
    lexerErrors (xs ++ ys) = lexerErrors xs ++ lexerErrors ys := by
  simp [lexerErrors, List.filterMap_append]

theorem lexerErrors_segsJoin (segs : List (PTok × List PTok)) :
    lexerErrors (segsJoin segs)
      = concatAll (segs.map (fun s => lexerErrors (segToks s))) := by
  induction segs with
  | nil => simp [segsJoin, concatAll, lexerErrors]
  | cons s rest ih => simp [segsJoin, concatAll, lexerErrors_append, ih]

theorem concatAll_length {α : Type} (L : List (List α)) :
    (concatAll L).length = (L.map List.length).sum := by
  induction L with
  | nil => simp [concatAll]
  | cons l rest ih => simp [concatAll, ih]

theorem sum_map_add {α : Type} (f g : α → Nat) (l : List α) :
    (l.map (fun x => f x + g x)).sum = (l.map f).sum + (l.map g).sum := by
  induction l with
  | nil => simp
  | cons a rest ih => simp [ih]; omega

theorem countP_le_sum {α : Type} (p : α → Bool) (f : α → Nat) (l : List α)
    (h : ∀ x ∈ l, p x = true → 1 ≤ f x) :
    l.countP p ≤ (l.map f).sum := by
  induction l with
  | nil => simp
  | cons a rest ih =>
    have ha := h a (by simp)
    have hrest : ∀ x ∈ rest, p x = true → 1 ≤ f x :=
      fun x hx => h x (by simp [hx])
    have := ih hrest
    by_cases hp : p a = true
    · have := ha hp
      simp [List.countP_cons, hp]
      omega
    · simp at hp
      simp [List.countP_cons, hp]
      omega

/-- Claim C1: for an input whose token stream is a sequence of directive
segments (each a directive-start token followed by non-start body tokens),
the parse --- a total function: no failure can cross the parser boundary ---
returns exactly the entries of the well-formed segments, in order and
unaffected by where malformed segments occur; the recorded errors are exactly
the per-segment errors (each malformed segment's reduction errors plus the
lexer-channel errors of its ERROR tokens), so when every malformed segment
accounts for at least one error, the number of recorded errors is at least
the number of malformed segments (and can exceed it only through multi-fault
segments). -/
theorem parse_error_recovery
    (reduce : PTok → List PTok → Except (List ParseErr) (Option Directive))
    (segs : List (PTok × List PTok))
    (hstart : ∀ s ∈ segs, isDirectiveStart s.1.2 = true)
    (hbody : ∀ s ∈ segs, ∀ u ∈ s.2, isDirectiveStart u.2 = false)
    (hfail : ∀ s ∈ segs, resultFails (reduce s.1 s.2) = true →
      1 ≤ (segErrs reduce s).length + (lexerErrors (segToks s)).length) :
    (parseTokens reduce (segsJoin segs)).1 = segs.filterMap (segEntry reduce)
  ∧ (parseTokens reduce (segsJoin segs)).2.length
      = (segs.map (fun s => (segErrs reduce s).length
          + (lexerErrors (segToks s)).length)).sum
  ∧ segs.countP (fun s => resultFails (reduce s.1 s.2))
      ≤ (parseTokens reduce (segsJoin segs)).2.length := by
  have hmain := parse_segs reduce segs hstart hbody ⟨.idle, [], []⟩
  have hclose0 : closeMode reduce ⟨.idle, [], []⟩ = ⟨.idle, [], []⟩ := rfl
  rw [hclose0] at hmain
  have h1 : (parseTokens reduce (segsJoin segs)).1
      = segs.filterMap (segEntry reduce) := by
    simp [parseTokens, hmain]
  have h2 : (parseTokens reduce (segsJoin segs)).2
      = lexerErrors (segsJoin segs) ++ concatAll (segs.map (segErrs reduce)) := by
    simp [parseTokens, hmain]
  have hlen : (parseTokens reduce (segsJoin segs)).2.length
      = (segs.map (fun s => (segErrs reduce s).length
          + (lexerErrors (segToks s)).length)).sum := by
    rw [h2, List.length_append, lexerErrors_segsJoin, concatAll_length,
        concatAll_length, sum_map_add, List.map_map, List.map_map]
    simp only [Function.comp_def]
    omega
  refine ⟨h1, hlen, ?_⟩
  rw [hlen]
  exact countP_le_sum (fun s => resultFails (reduce s.1 s.2))
    (fun s => (segErrs reduce s).length + (lexerErrors (segToks s)).length)
    segs hfail

/-- Witness for claim C1 at the concrete input of
`test_grammar_syntax_error__multiple`: two independently malformed directives
among three well-formed ones yield the three well-formed entries and two
errors. -/
theorem parse_error_recovery_witness :
    ((parseTokens reduceDirective (segsJoin errRecoverySegs)).1
        = errRecoverySegs.filterMap (segEntry reduceDirective)
      ∧ (parseTokens reduceDirective (segsJoin errRecoverySegs)).2.length
          = (errRecoverySegs.map (fun s => (segErrs reduceDirective s).length
              + (lexerErrors (segToks s)).length)).sum
      ∧ errRecoverySegs.countP
            (fun s => resultFails (reduceDirective s.1 s.2))
          ≤ (parseTokens reduceDirective (segsJoin errRecoverySegs)).2.length)
  ∧ (parseTokens reduceDirective (segsJoin errRecoverySegs)).1
      = [.openDir ⟨2000, 1, 1⟩ "Assets:Before" [],
         .openDir ⟨2000, 1, 3⟩ "Assets:After" [],
         .closeDir ⟨2000, 1, 5⟩ "Assets:After"]
  ∧ (parseTokens reduceDirective (segsJoin errRecoverySegs)).2
      = [.synErr ⟨"f", 2⟩ "syntax error", .synErr ⟨"f", 4⟩ "syntax error"] :=
  ⟨parse_error_recovery reduceDirective errRecoverySegs
      (by decide) (by decide) (by decide),
   by decide, by decide⟩

theorem concatAll_eq_filterMap {α β : Type} (g : α → List β) (f : α → Option β) :
    ∀ l : List α, (∀ x ∈ l, g x = optList (f x)) →
      concatAll (l.map g) = l.filterMap f := by
  intro l
  induction l with
  | nil => intro _; simp [concatAll]
  | cons a rest ih =>
    intro h
    have ha := h a (by simp)
    have hrest : ∀ x ∈ rest, g x = optList (f x) :=
      fun x hx => h x (by simp [hx])
    rcases hf : f a with _ | b <;>
      rw [hf] at ha <;>
      simp [concatAll, ha, List.filterMap_cons, hf, ih hrest, optList]

theorem mem_segsJoin {u : PTok} :
    ∀ {segs : List (PTok × List PTok)}, u ∈ segsJoin segs →
      ∃ s ∈ segs, u ∈ segToks s := by
  intro segs
  induction segs with
  | nil => intro h; simp [segsJoin] at h
  | cons s rest ih =>
    intro h
    rw [segsJoin, List.mem_append] at h
    rcases h with h | h
    · exact ⟨s, by simp, h⟩
    · obtain ⟨s1, hs1, hu⟩ := ih h
      exact ⟨s1, by simp [hs1], hu⟩

theorem lexerErrors_eq_nil (ts : List PTok)
    (h : ∀ u ∈ ts, isErrTok u.2 = false) : lexerErrors ts = [] := by
  induction ts with
  | nil => rfl
  | cons u rest ih =>
    have hu := h u (by simp)
    have hrest : ∀ v ∈ rest, isErrTok v.2 = false :=
      fun v hv => h v (by simp [hv])
    have hnone : lexErrOf u = none := by
      rcases u with ⟨l, tk⟩
      cases tk <;> simp [lexErrOf, isErrTok] at hu ⊢
    have := ih hrest
    simp only [lexerErrors, List.filterMap_cons, hnone] at this ⊢
    exact this

/-- Claim C2: for every builder, when a token stream of grammatically valid,
lexer-clean directive segments is parsed with that builder installed, any
exception raised from inside a builder callback while its rule is reduced is
caught at the call site and converted into exactly one `ParserError` carrying
the current source location and a message derived from the underlying
failure; only the in-progress entry is dropped, and every other segment whose
builder call succeeds still produces its directive. -/
theorem builder_exception_recovery
    (builder : RuleOut → PTok → List PTok → Except String (Option Directive))
    (segs : List (PTok × List PTok))
    (hstart : ∀ s ∈ segs, isDirectiveStart s.1.2 = true)
    (hbody : ∀ s ∈ segs, ∀ u ∈ s.2, isDirectiveStart u.2 = false)
    (hclean : ∀ s ∈ segs, ∀ u ∈ segToks s, isErrTok u.2 = false)
    (hgram : ∀ s ∈ segs, (parseRule s.1 s.2).isSome = true) :
    (parseTokens (reduceGen builder) (segsJoin segs)).1
      = segs.filterMap (fun s =>
          match parseRule s.1 s.2 with
          | some ro =>
            (match builder ro s.1 s.2 with
             | .ok o => o
             | .error _ => none)
          | none => none)
  ∧ (parseTokens (reduceGen builder) (segsJoin segs)).2
      = segs.filterMap (fun s =>
          match parseRule s.1 s.2 with
          | some ro =>
            (match builder ro s.1 s.2 with
             | .ok _ => none
             | .error m => some (.builderErr s.1.1 (deriveMessage m)))
          | none => none) := by
  have hmain := parse_segs (reduceGen builder) segs hstart hbody ⟨.idle, [], []⟩
  have hclose0 : closeMode (reduceGen builder) ⟨.idle, [], []⟩
      = ⟨.idle, [], []⟩ := rfl
  rw [hclose0] at hmain
  have hred : ∀ s ∈ segs, reduceGen builder s.1 s.2
      = (match parseRule s.1 s.2 with
         | some ro =>
           (match builder ro s.1 s.2 with
            | .ok o => .ok o
            | .error m => .error [.builderErr s.1.1 (deriveMessage m)])
         | none => .error [.synErr s.1.1 "syntax error"]) := by
    intro s hs
    have hany : ((s.1 :: s.2).any (fun p => isErrTok p.2)) = false := by
      rw [List.any_eq_false]
      intro x hx
      have := hclean s hs x (by simpa [segToks] using hx)
      simp [this]
    simp only [reduceGen, hany, Bool.false_eq_true, if_false]
    rcases parseRule s.1 s.2 with _ | ro <;> rfl
  constructor
  · have h1 : (parseTokens (reduceGen builder) (segsJoin segs)).1
        = segs.filterMap (segEntry (reduceGen builder)) := by
      simp [parseTokens, hmain]
    rw [h1]
    apply List.filterMap_congr
    intro s hs
    have hro := hgram s hs
    rcases hpr : parseRule s.1 s.2 with _ | ro
    · rw [hpr] at hro; simp at hro
    · rw [segEntry, hred s hs, hpr]
      rcases hbd : builder ro s.1 s.2 with m | o <;> simp [hbd]
  · have h2 : (parseTokens (reduceGen builder) (segsJoin segs)).2
        = lexerErrors (segsJoin segs)
          ++ concatAll (segs.map (segErrs (reduceGen builder))) := by
      simp [parseTokens, hmain]
    have hlex : lexerErrors (segsJoin segs) = [] := by
      apply lexerErrors_eq_nil
      intro u hu
      obtain ⟨s, hs, hmem⟩ := mem_segsJoin hu
      exact hclean s hs u hmem
    rw [h2, hlex, List.nil_append]
    apply concatAll_eq_filterMap
    intro s hs
    have hro := hgram s hs
    rcases hpr : parseRule s.1 s.2 with _ | ro
    · rw [hpr] at hro; simp at hro
    · rw [segErrs, hred s hs, hpr]
      rcases hbd : builder ro s.1 s.2 with m | o <;> simp [hbd, optList]

/-- Witness for claim C2 at the concrete input of
`test_grammar_exceptions__pushtag`: the patched `pushtag` callback raises,
the parse still yields the two surrounding directives plus exactly one
`ParserError` at the pushtag line whose message is derived from the
exception. -/
theorem builder_exception_recovery_witness :
    ((parseTokens (reduceGen patchedPushtagBuilder) (segsJoin pushtagSegs)).1
        = pushtagSegs.filterMap (fun s =>
            match parseRule s.1 s.2 with
            | some ro =>
              (match patchedPushtagBuilder ro s.1 s.2 with
               | .ok o => o
               | .error _ => none)
            | none => none)
      ∧ (parseTokens (reduceGen patchedPushtagBuilder) (segsJoin pushtagSegs)).2
          = pushtagSegs.filterMap (fun s =>
              match parseRule s.1 s.2 with
              | some ro =>
                (match patchedPushtagBuilder ro s.1 s.2 with
                 | .ok _ => none
                 | .error m => some (.builderErr s.1.1 (deriveMessage m)))
              | none => none))
  ∧ (parseTokens (reduceGen patchedPushtagBuilder) (segsJoin pushtagSegs)).1
      = [.openDir ⟨2000, 1, 1⟩ "Assets:Before" [],
         .closeDir ⟨2010, 1, 1⟩ "Assets:Before"]
  ∧ (parseTokens (reduceGen patchedPushtagBuilder) (segsJoin pushtagSegs)).2
      = [.builderErr ⟨"g", 2⟩ "Patched exception in parser"] :=
  ⟨builder_exception_recovery patchedPushtagBuilder pushtagSegs
      (by decide) (by decide) (by decide) (by decide),
   by decide, by decide⟩

/-- Claim C4: for every posting whose cost is written in double-brace form,
the resulting `CompoundAmount` has `per_unit` equal to exact zero and `total`
holding the parsed value, whereas the single-brace total-only form
`{# NUMBER CURRENCY}` yields `per_unit` absent with `total` holding the
parsed value; the two `CompoundAmount`s, and the `LotSpec`s built from them,
remain distinguishable in the shared structure. -/
theorem double_brace_total_vs_hash_total (a uc : String) (n v : ℚ) (c : String) :
    parsePosting [.acct a, .num n, .cur uc, .dlbrace, .num v, .cur c, .drbrace]
      = some ⟨a, some (n, uc), some [.compAmount ⟨some 0, some v, some c⟩]⟩
  ∧ parsePosting [.acct a, .num n, .cur uc, .lbrace, .hashTok, .num v, .cur c, .rbrace]
      = some ⟨a, some (n, uc), some [.compAmount ⟨none, some v, some c⟩]⟩
  ∧ (CompoundAmount.mk (some 0) (some v) (some c)) ≠ ⟨none, some v, some c⟩
  ∧ (lot_spec (some uc) [.compAmount ⟨some 0, some v, some c⟩]).1.compound_cost
      = some ⟨some 0, some v, some c⟩
  ∧ (lot_spec (some uc) [.compAmount ⟨none, some v, some c⟩]).1.compound_cost
      = some ⟨none, some v, some c⟩
  ∧ (lot_spec (some uc) [.compAmount ⟨some 0, some v, some c⟩]).1
      ≠ (lot_spec (some uc) [.compAmount ⟨none, some v, some c⟩]).1 := by
  refine ⟨?_, ?_, ?_, rfl, rfl, ?_⟩
  · simp [parsePosting, splitAtRR]
  · simp [parsePosting, splitAtR, parseLotComponents, splitComma,
      parseCompList, parseOneComp]
  · simp
  · intro h
    have := congrArg LotSpec.compound_cost h
    simp [lot_spec, lotFold] at this

/-- Claim C10: parsing the directive
`2013-05-18 balance Assets:Investments 10 MSFT {45.30 USD}` produces no entry
and records exactly one `ParserSyntaxError`: the cost clause does not match
the balance grammar (`ACCOUNT AMOUNT ["~" TOLERANCE]`), even though the very
same posting tokens `Assets:Investments 10 MSFT {45.30 USD}` are accepted by
the transaction-posting grammar. -/
theorem balance_with_cost_clause_rejected :
    parseTokens reduceDirective
      [(⟨"f", 1⟩, .dateTok 2013 5 18), (⟨"f", 1⟩, .kw "balance"),
       (⟨"f", 1⟩, .acct "Assets:Investments"), (⟨"f", 1⟩, .num 10),
       (⟨"f", 1⟩, .cur "MSFT"), (⟨"f", 1⟩, .lbrace), (⟨"f", 1⟩, .num (453/10)),
       (⟨"f", 1⟩, .cur "USD"), (⟨"f", 1⟩, .rbrace)]
      = ([], [.synErr ⟨"f", 1⟩ "syntax error"])
  ∧ parsePosting
      [.acct "Assets:Investments", .num 10, .cur "MSFT", .lbrace,
       .num (453/10), .cur "USD", .rbrace]
      = some ⟨"Assets:Investments", some (10, "MSFT"),
              some [.compAmount ⟨some (453/10), none, some "USD"⟩]⟩ := by
  exact ⟨rfl, rfl⟩
